import Mathlib

/-!
Verification development for the Fintrack storage core
(src/storage.ts, src/schema.ts).

Embedding conventions:
* JavaScript `Date` values are modelled as proleptic-Gregorian calendar
  triples (year, month 1..12, day), interpreted in UTC.  `setMonth`
  normalizes an out-of-range month into the year and then normalizes a
  day-of-month that exceeds the target month's length by rolling into the
  following month, exactly as the ECMAScript date arithmetic does.
* Monetary values (Postgres decimal columns, JS numbers) are modelled as
  exact rationals; floating-point rounding and the decimal(10,2) storage
  scale are not modelled.
* Row identities (uuid defaults) are modelled by a counter `nextId` in the
  database state; freshly inserted rows are appended at the end of the
  corresponding table list.
-/

/-- Gregorian leap-year test, as used by the ECMAScript calendar. -/
def isLeapYear (y : Nat) : Bool :=
  (y % 4 == 0 && y % 100 != 0) || y % 400 == 0

/-- Number of days of month `m` (1..12) of year `y`. -/
def daysInMonth (y m : Nat) : Nat :=
  if m = 2 then (if isLeapYear y then 29 else 28)
  else if m = 4 ∨ m = 6 ∨ m = 9 ∨ m = 11 then 30
  else 31

/-- The (year, month) pair one calendar month after (y, m). -/
def nextYM (y m : Nat) : Nat × Nat :=
  if m = 12 then (y + 1, 1) else (y, m + 1)

/-- A calendar date: year, month (1..12), day (1..31). -/
structure Date where
  year : Nat
  month : Nat
  day : Nat
deriving DecidableEq

/-- Day-overflow normalization of ECMAScript date construction: while the
day exceeds the month length, subtract the month length and advance one
month.  The first argument is fuel; `normalizeDate` supplies fuel `d`,
which suffices because each step removes at least one day. -/
def normalizeAux : Nat → Nat → Nat → Nat → Date
  | 0, y, m, d => ⟨y, m, d⟩
  | fuel + 1, y, m, d =>
    if d ≤ daysInMonth y m then ⟨y, m, d⟩
    else normalizeAux fuel (nextYM y m).1 (nextYM y m).2 (d - daysInMonth y m)

/-- Normalize a (year, month 1..12, day) triple with possible day overflow
into a real calendar date, the way ECMAScript `Date` does. -/
def normalizeDate (y m d : Nat) : Date :=
  normalizeAux d y m d

/-- ECMAScript `date.setMonth(date.getMonth() + k)`: linearize the month,
carry into the year, and re-normalize the day of month. -/
def addMonths (dt : Date) (k : Nat) : Date :=
  let idx := dt.year * 12 + (dt.month - 1) + k
  normalizeDate (idx / 12) (idx % 12 + 1) dt.day

/-- The template literal of storage.ts line 128: year, a dash, and the
month zero-padded to two digits. -/
def formatYM (y m : Nat) : String :=
  toString y ++ "-" ++ (if m < 10 then "0" ++ toString m else toString m)

/-- A row of the cards table (schema.ts): only the columns the storage
core reads are modelled. -/
structure CardRow where
  id : String
  closingDay : Nat
deriving DecidableEq

/-- A row of the purchases table (schema.ts lines 16-28): one row per
installment.  `createdAt` is not modelled; uuid identity is modelled as a
Nat. -/
structure PurchaseRow where
  id : Nat
  cardId : String
  purchaseDate : Date
  name : String
  category : String
  totalValue : ℚ
  totalInstallments : Nat
  currentInstallment : Nat
  installmentValue : ℚ
  invoiceMonth : String
deriving DecidableEq

/-- A row of the monthly_invoices table (schema.ts lines 30-36); the uuid
and createdAt columns are never read by the storage core and are not
modelled. -/
structure InvoiceRow where
  month : String
  cardId : String
  totalValue : ℚ
deriving DecidableEq

/-- The database state seen by DatabaseStorage: the three tables the
purchase lifecycle touches, plus the id supply for fresh purchase rows. -/
structure DB where
  cards : List CardRow
  purchases : List PurchaseRow
  invoices : List InvoiceRow
  nextId : Nat
deriving DecidableEq

/-- A validated purchase submission (the InsertPurchase type of
schema.ts): totalValue already parsed to a number, installmentValue and
invoiceMonth not yet computed.  The purchase date string is modelled as
its parsed calendar date. -/
structure InsertPurchase where
  cardId : String
  purchaseDate : Date
  name : String
  category : String
  totalValue : ℚ
  totalInstallments : Nat
deriving DecidableEq

/-- DatabaseStorage.getCard (storage.ts lines 48-51): select where id
matches, take the first row. -/
def getCard (db : DB) (id : String) : Option CardRow :=
  db.cards.find? (fun c => c.id == id)

/-- The SELECT COALESCE(SUM(installmentValue), 0) ... WHERE invoiceMonth =
month AND cardId = cardId of storage.ts lines 244-247. -/
def sumInstallmentValues (ps : List PurchaseRow) (month cardId : String) : ℚ :=
  ((ps.filter fun p => decide (p.invoiceMonth = month ∧ p.cardId = cardId)).map
    (fun p => p.installmentValue)).sum

/-- DatabaseStorage.updateMonthlyInvoice (storage.ts lines 210-228):
update every existing row for (month, cardId) if any exists, otherwise
insert a fresh one. -/
def updateMonthlyInvoice (month cardId : String) (totalValue : ℚ) (db : DB) : DB :=
  if db.invoices.any (fun r => decide (r.month = month ∧ r.cardId = cardId)) then
    { db with invoices := db.invoices.map fun r =>
        if r.month = month ∧ r.cardId = cardId then { r with totalValue := totalValue } else r }
  else
    { db with invoices := db.invoices ++ [⟨month, cardId, totalValue⟩] }

/-- DatabaseStorage.updateMonthlyInvoiceForCard (storage.ts lines
243-251): recompute the sum for the pair and upsert it. -/
def updateMonthlyInvoiceForCard (month cardId : String) (db : DB) : DB :=
  updateMonthlyInvoice month cardId (sumInstallmentValues db.purchases month cardId) db

/-- The db.insert(purchases).values(...).returning() step: the fresh row
is appended and receives the next free id. -/
def insertRow (db : DB) (row : PurchaseRow) : DB :=
  { db with purchases := db.purchases ++ [row], nextId := db.nextId + 1 }

/-- The purchaseData record built in the loop body of
DatabaseStorage.createPurchase (storage.ts lines 125-140) for installment
index `i`, given the id the insert assigns. -/
def installmentRow (ins : InsertPurchase) (firstD : Date) (iv : ℚ) (nid i : Nat) :
    PurchaseRow :=
  let d := addMonths firstD i
  { id := nid
    cardId := ins.cardId
    purchaseDate := ins.purchaseDate
    name := ins.name
    category := ins.category
    totalValue := ins.totalValue
    totalInstallments := ins.totalInstallments
    currentInstallment := i + 1
    installmentValue := iv
    invoiceMonth := formatYM d.year d.month }

/-- The for-loop of DatabaseStorage.createPurchase (storage.ts lines
124-147), phrased by recursion on the number `k` of iterations still to
run, with `i` the current loop index: build the installment row, insert
it, refresh the monthly invoice for its month, continue.  Returns the
accumulated purchaseList and the final state. -/
def createLoop (ins : InsertPurchase) (firstD : Date) (iv : ℚ) :
    Nat → Nat → DB → List PurchaseRow × DB
  | _, 0, db => ([], db)
  | i, k + 1, db =>
    let row := installmentRow ins firstD iv db.nextId i
    let db2 := updateMonthlyInvoiceForCard row.invoiceMonth ins.cardId (insertRow db row)
    let rest := createLoop ins firstD iv (i + 1) k db2
    (row :: rest.1, rest.2)

/-- The first-invoice-month computation of storage.ts lines 110-119: copy
the purchase date and, when the purchase day is on or after the card's
closing day, advance it one month (with ECMAScript day normalization). -/
def firstInvoiceDate (purchaseDate : Date) (closingDay : Nat) : Date :=
  if purchaseDate.day ≥ closingDay then addMonths purchaseDate 1 else purchaseDate

/-- DatabaseStorage.createPurchase (storage.ts lines 102-151).  The thrown
"Card not found" error is modelled as an Except.error; the returned
purchaseList[0] is an Option because index 0 of an empty list is undefined
in the source. -/
def createPurchase (ins : InsertPurchase) (db : DB) :
    Except String (Option PurchaseRow) × DB :=
  let installmentValue := ins.totalValue / (ins.totalInstallments : ℚ)
  match getCard db ins.cardId with
  | none => (.error "Card not found", db)
  | some card =>
    let firstD := firstInvoiceDate ins.purchaseDate card.closingDay
    let res := createLoop ins firstD installmentValue 0 ins.totalInstallments db
    (.ok res.1.head?, res.2)

/-- The sibling condition of storage.ts lines 168-176: same card, purchase
date, name, total value and installment count as the identified row. -/
def sibMatch (p q : PurchaseRow) : Bool :=
  decide (q.cardId = p.cardId ∧ q.purchaseDate = p.purchaseDate ∧ q.name = p.name ∧
    q.totalValue = p.totalValue ∧ q.totalInstallments = p.totalInstallments)

/-- Array.from(new Set(...)) of storage.ts line 179: drop duplicates,
keeping the first occurrence of each element. -/
def dedupFirst : List String → List String
  | [] => []
  | x :: xs => x :: dedupFirst (xs.filter fun y => y ≠ x)
termination_by l => l.length
decreasing_by
  simpa using Nat.lt_succ_of_le (List.length_filter_le _ xs)

/-- The refresh loop of storage.ts lines 193-195: refresh the monthly
invoice of the given card for each collected month in turn. -/
def refreshMonths (cardId : String) (ms : List String) (db : DB) : DB :=
  ms.foldl (fun acc m => updateMonthlyInvoiceForCard m cardId acc) db

/-- DatabaseStorage.deletePurchase (storage.ts lines 162-197): look up the
row by id (silent no-op when absent), collect its siblings and their
distinct invoice months, delete the siblings, then refresh each collected
month for the card. -/
def deletePurchase (id : Nat) (db : DB) : DB :=
  match db.purchases.find? (fun p => p.id == id) with
  | none => db
  | some purchase =>
    let relatedPurchases := db.purchases.filter (sibMatch purchase)
    let invoiceMonths := dedupFirst (relatedPurchases.map fun p => p.invoiceMonth)
    let db1 : DB := { db with purchases := db.purchases.filter fun q => !sibMatch purchase q }
    refreshMonths purchase.cardId invoiceMonths db1

/-- Pure calendar-month advance as the spec words it: add `i` months to
(y, m), rolling the year over at month 12 to 1, with no day involved.
This is the spec-side comparison point for the installment month rule. -/
def specAdvanceMonth (y m i : Nat) : Nat × Nat :=
  ((y * 12 + (m - 1) + i) / 12, (y * 12 + (m - 1) + i) % 12 + 1)

/-- The totalInstallments rule of insertPurchaseSchema (schema.ts line
79): z.number().min(1).max(99).  zod numbers are modelled as rationals;
note the rule carries no integrality test. -/
def totalInstallmentsAccepted (t : ℚ) : Bool :=
  decide (1 ≤ t) && decide (t ≤ 99)

/-- The monthly-invoice invariant of the spec: every stored invoice row
carries exactly the sum of the installment values currently assigned to
its (month, card) pair. -/
def invariantHolds (db : DB) : Prop :=
  ∀ r ∈ db.invoices, r.totalValue = sumInstallmentValues db.purchases r.month r.cardId

instance (db : DB) : Decidable (invariantHolds db) := by
  unfold invariantHolds; infer_instance

/-- The rows a createPurchase call appended to the purchases table. -/
def createdRows (ins : InsertPurchase) (db : DB) : List PurchaseRow :=
  ((createPurchase ins db).2.purchases).drop db.purchases.length

/-- The invoice months of the rows a createPurchase call appended, in
installment order. -/
def createdInvoiceMonths (ins : InsertPurchase) (db : DB) : List String :=
  (createdRows ins db).map fun p => p.invoiceMonth

/-- The invoice month of the representative record a createPurchase call
returned, when it returned one. -/
def repMonth (res : Except String (Option PurchaseRow)) : Option String :=
  match res with
  | .ok (some r) => some r.invoiceMonth
  | _ => none

/-- Every month, of any year, has at least 28 days. -/
theorem le_daysInMonth (y m : Nat) : 28 ≤ daysInMonth y m := by
  simp only [daysInMonth]
  split
  · split <;> omega
  · split <;> omega

/-- Every month has at most 31 days. -/
theorem daysInMonth_le (y m : Nat) : daysInMonth y m ≤ 31 := by
  simp only [daysInMonth]
  split
  · split <;> omega
  · split <;> omega

/-- Day-overflow normalization is the identity on in-range days,
whatever the fuel. -/
theorem normalizeAux_of_le (fuel y m d : Nat) (h : d ≤ daysInMonth y m) :
    normalizeAux fuel y m d = ⟨y, m, d⟩ := by
  cases fuel with
  | zero => rfl
  | succ k => simp [normalizeAux, h]

/-- normalizeDate on an in-range day is the identity. -/
theorem normalizeDate_of_le (y m d : Nat) (h : d ≤ daysInMonth y m) :
    normalizeDate y m d = ⟨y, m, d⟩ :=
  normalizeAux_of_le d y m d h

/-- When the day overflows the month once, normalizeDate rolls exactly
one month forward. -/
theorem normalizeDate_one_step (y m d : Nat) (h1 : daysInMonth y m < d)
    (h2 : d - daysInMonth y m ≤ daysInMonth (nextYM y m).1 (nextYM y m).2) :
    normalizeDate y m d = ⟨(nextYM y m).1, (nextYM y m).2, d - daysInMonth y m⟩ := by
  obtain ⟨k, rfl⟩ : ∃ k, d = k + 1 := ⟨d - 1, by omega⟩
  unfold normalizeDate
  simp only [normalizeAux, if_neg (by omega : ¬(k + 1 ≤ daysInMonth y m))]
  exact normalizeAux_of_le _ _ _ _ h2

/-- addMonths in the overflow-free case: pure month arithmetic, day kept. -/
theorem addMonths_of_le (dt : Date) (k : Nat)
    (h : dt.day ≤ daysInMonth ((dt.year * 12 + (dt.month - 1) + k) / 12)
      ((dt.year * 12 + (dt.month - 1) + k) % 12 + 1)) :
    addMonths dt k =
      ⟨(dt.year * 12 + (dt.month - 1) + k) / 12,
       (dt.year * 12 + (dt.month - 1) + k) % 12 + 1, dt.day⟩ :=
  normalizeDate_of_le _ _ _ h

/-- A day of month at most 28 never overflows, so addMonths agrees with
the spec's pure month advance. -/
theorem addMonths_day_le (dt : Date) (k : Nat) (h : dt.day ≤ 28) :
    addMonths dt k =
      ⟨(specAdvanceMonth dt.year dt.month k).1,
       (specAdvanceMonth dt.year dt.month k).2, dt.day⟩ :=
  addMonths_of_le dt k (le_trans h (le_daysInMonth _ _))

/-- updateMonthlyInvoice touches only the invoices table. -/
theorem updateMonthlyInvoice_purchases (month cardId : String) (t : ℚ) (db : DB) :
    (updateMonthlyInvoice month cardId t db).purchases = db.purchases := by
  unfold updateMonthlyInvoice
  split <;> rfl

/-- updateMonthlyInvoice keeps the cards table. -/
theorem updateMonthlyInvoice_cards (month cardId : String) (t : ℚ) (db : DB) :
    (updateMonthlyInvoice month cardId t db).cards = db.cards := by
  unfold updateMonthlyInvoice
  split <;> rfl

/-- updateMonthlyInvoice keeps the id supply. -/
theorem updateMonthlyInvoice_nextId (month cardId : String) (t : ℚ) (db : DB) :
    (updateMonthlyInvoice month cardId t db).nextId = db.nextId := by
  unfold updateMonthlyInvoice
  split <;> rfl

/-- After updateMonthlyInvoice, every invoice row of the targeted
(month, card) pair carries the written total. -/
theorem updateMonthlyInvoice_mem_matching (month cardId : String) (t : ℚ) (db : DB)
    (r : InvoiceRow) (hr : r ∈ (updateMonthlyInvoice month cardId t db).invoices)
    (hm : r.month = month) (hc : r.cardId = cardId) : r.totalValue = t := by
  unfold updateMonthlyInvoice at hr
  split at hr
  · simp only [List.mem_map] at hr
    obtain ⟨a, _, ha⟩ := hr
    by_cases hmatch : a.month = month ∧ a.cardId = cardId
    · rw [if_pos hmatch] at ha
      rw [← ha]
    · rw [if_neg hmatch] at ha
      subst ha
      exact absurd ⟨hm, hc⟩ hmatch
  · rename_i hnone
    simp only [List.mem_append, List.mem_singleton] at hr
    rcases hr with hr | hr
    · exfalso
      apply hnone
      exact List.any_eq_true.2 ⟨r, hr, decide_eq_true ⟨hm, hc⟩⟩
    · rw [hr]

/-- An invoice row of a different (month, card) pair that is present
after updateMonthlyInvoice was present before. -/
theorem updateMonthlyInvoice_mem_other (month cardId : String) (t : ℚ) (db : DB)
    (r : InvoiceRow) (hr : r ∈ (updateMonthlyInvoice month cardId t db).invoices)
    (hother : ¬(r.month = month ∧ r.cardId = cardId)) : r ∈ db.invoices := by
  unfold updateMonthlyInvoice at hr
  split at hr
  · simp only [List.mem_map] at hr
    obtain ⟨a, ha, haeq⟩ := hr
    by_cases hmatch : a.month = month ∧ a.cardId = cardId
    · rw [if_pos hmatch] at haeq
      exact absurd (by rw [← haeq]; exact hmatch) hother
    · rw [if_neg hmatch] at haeq
      rwa [← haeq]
  · simp only [List.mem_append, List.mem_singleton] at hr
    rcases hr with hr | hr
    · exact hr
    · exact absurd (by rw [hr]; exact ⟨rfl, rfl⟩) hother

/-- An invoice row of a different (month, card) pair survives
updateMonthlyInvoice unchanged. -/
theorem updateMonthlyInvoice_mem_other_of_mem (month cardId : String) (t : ℚ) (db : DB)
    (r : InvoiceRow) (hr : r ∈ db.invoices)
    (hother : ¬(r.month = month ∧ r.cardId = cardId)) :
    r ∈ (updateMonthlyInvoice month cardId t db).invoices := by
  unfold updateMonthlyInvoice
  split
  · simp only [List.mem_map]
    exact ⟨r, hr, if_neg hother⟩
  · simp only [List.mem_append]
    exact Or.inl hr

/-- After updateMonthlyInvoice a row for the targeted (month, card) pair
exists. -/
theorem updateMonthlyInvoice_exists (month cardId : String) (t : ℚ) (db : DB) :
    ∃ r ∈ (updateMonthlyInvoice month cardId t db).invoices,
      r.month = month ∧ r.cardId = cardId := by
  unfold updateMonthlyInvoice
  split
  · rename_i hany
    obtain ⟨a, ha, hmatch⟩ := List.any_eq_true.1 hany
    have hmatch' := of_decide_eq_true hmatch
    refine ⟨if a.month = month ∧ a.cardId = cardId then
        { a with totalValue := t } else a, ?_, ?_⟩
    · simp only [List.mem_map]
      exact ⟨a, ha, rfl⟩
    · rw [if_pos hmatch']
      exact hmatch'
  · exact ⟨⟨month, cardId, t⟩, by simp, rfl, rfl⟩

/-- The aggregate refresh touches only the invoices table. -/
theorem refresh_purchases (month cardId : String) (db : DB) :
    (updateMonthlyInvoiceForCard month cardId db).purchases = db.purchases :=
  updateMonthlyInvoice_purchases ..

/-- The aggregate refresh keeps the cards table. -/
theorem refresh_cards (month cardId : String) (db : DB) :
    (updateMonthlyInvoiceForCard month cardId db).cards = db.cards :=
  updateMonthlyInvoice_cards ..

/-- The aggregate refresh keeps the id supply. -/
theorem refresh_nextId (month cardId : String) (db : DB) :
    (updateMonthlyInvoiceForCard month cardId db).nextId = db.nextId :=
  updateMonthlyInvoice_nextId ..

/-- After a refresh, every invoice row of the refreshed (month, card)
pair carries the recomputed sum. -/
theorem refresh_mem_matching (month cardId : String) (db : DB) (r : InvoiceRow)
    (hr : r ∈ (updateMonthlyInvoiceForCard month cardId db).invoices)
    (hm : r.month = month) (hc : r.cardId = cardId) :
    r.totalValue = sumInstallmentValues db.purchases month cardId :=
  updateMonthlyInvoice_mem_matching month cardId _ db r hr hm hc

/-- Rows of other (month, card) pairs present after a refresh were
present before. -/
theorem refresh_mem_other (month cardId : String) (db : DB) (r : InvoiceRow)
    (hr : r ∈ (updateMonthlyInvoiceForCard month cardId db).invoices)
    (hother : ¬(r.month = month ∧ r.cardId = cardId)) : r ∈ db.invoices :=
  updateMonthlyInvoice_mem_other month cardId _ db r hr hother

/-- Rows of other (month, card) pairs survive a refresh unchanged. -/
theorem refresh_mem_other_of_mem (month cardId : String) (db : DB) (r : InvoiceRow)
    (hr : r ∈ db.invoices) (hother : ¬(r.month = month ∧ r.cardId = cardId)) :
    r ∈ (updateMonthlyInvoiceForCard month cardId db).invoices :=
  updateMonthlyInvoice_mem_other_of_mem month cardId _ db r hr hother

/-- After a refresh a row for the refreshed (month, card) pair exists. -/
theorem refresh_exists (month cardId : String) (db : DB) :
    ∃ r ∈ (updateMonthlyInvoiceForCard month cardId db).invoices,
      r.month = month ∧ r.cardId = cardId :=
  updateMonthlyInvoice_exists ..

/-- Appending a purchase row of a different (month, card) pair does not
change the pair's installment sum. -/
theorem sumInstallmentValues_append_other (ps : List PurchaseRow) (row : PurchaseRow)
    (month cardId : String) (h : ¬(row.invoiceMonth = month ∧ row.cardId = cardId)) :
    sumInstallmentValues (ps ++ [row]) month cardId =
      sumInstallmentValues ps month cardId := by
  unfold sumInstallmentValues
  rw [List.filter_append]
  simp [h]

/-- Removing only purchase rows outside a (month, card) pair does not
change the pair's installment sum. -/
theorem sumInstallmentValues_filter_other (ps : List PurchaseRow)
    (keep : PurchaseRow → Bool) (month cardId : String)
    (h : ∀ q ∈ ps, q.invoiceMonth = month → q.cardId = cardId → keep q = true) :
    sumInstallmentValues (ps.filter keep) month cardId =
      sumInstallmentValues ps month cardId := by
  unfold sumInstallmentValues
  rw [List.filter_filter]
  have heq : (ps.filter fun a =>
        decide (a.invoiceMonth = month ∧ a.cardId = cardId) && keep a)
      = ps.filter fun p => decide (p.invoiceMonth = month ∧ p.cardId = cardId) := by
    apply List.filter_congr
    intro q hq
    by_cases hmc : q.invoiceMonth = month ∧ q.cardId = cardId
    · simp [hmc, h q hq hmc.1 hmc.2]
    · simp [hmc]
  rw [heq]

/-- Inserting a purchase row and then refreshing exactly that row's
(month, card) pair preserves the monthly-invoice invariant. -/
theorem insert_refresh_invariant (db : DB) (row : PurchaseRow)
    (h : invariantHolds db) :
    invariantHolds (updateMonthlyInvoiceForCard row.invoiceMonth row.cardId
      (insertRow db row)) := by
  intro r hr
  rw [refresh_purchases]
  by_cases hmatch : r.month = row.invoiceMonth ∧ r.cardId = row.cardId
  · rw [hmatch.1, hmatch.2]
    exact refresh_mem_matching _ _ _ r hr hmatch.1 hmatch.2
  · have hrold : r ∈ db.invoices :=
      refresh_mem_other _ _ (insertRow db row) r hr hmatch
    show r.totalValue = sumInstallmentValues (db.purchases ++ [row]) r.month r.cardId
    rw [sumInstallmentValues_append_other db.purchases row r.month r.cardId
      (fun hc => hmatch ⟨hc.1.symm, hc.2.symm⟩)]
    exact h r hrold

/-- Every iteration of the createPurchase loop preserves the
monthly-invoice invariant. -/
theorem createLoop_invariant (ins : InsertPurchase) (firstD : Date) (iv : ℚ) :
    ∀ k i db, invariantHolds db →
      invariantHolds (createLoop ins firstD iv i k db).2 := by
  intro k
  induction k with
  | zero => intro i db h; exact h
  | succ n ih =>
    intro i db h
    apply ih
    have hrow : (installmentRow ins firstD iv db.nextId i).cardId = ins.cardId := rfl
    rw [← hrow]
    exact insert_refresh_invariant db (installmentRow ins firstD iv db.nextId i) h

/-- Closed form of the createPurchase loop: it emits one row per
remaining iteration, with sequential ids and loop indices, appends them
to the purchases table in order, and consumes one id per row. -/
theorem createLoop_spec (ins : InsertPurchase) (firstD : Date) (iv : ℚ) :
    ∀ k i db,
      (createLoop ins firstD iv i k db).1 =
        (List.range k).map (fun t => installmentRow ins firstD iv (db.nextId + t) (i + t))
      ∧ (createLoop ins firstD iv i k db).2.purchases =
        db.purchases ++ (createLoop ins firstD iv i k db).1
      ∧ (createLoop ins firstD iv i k db).2.nextId = db.nextId + k := by
  intro k
  induction k with
  | zero => intro i db; simp [createLoop]
  | succ n ih =>
    intro i db
    have hpur2 : (updateMonthlyInvoiceForCard
        (installmentRow ins firstD iv db.nextId i).invoiceMonth ins.cardId
        (insertRow db (installmentRow ins firstD iv db.nextId i))).purchases =
        db.purchases ++ [installmentRow ins firstD iv db.nextId i] := by
      rw [refresh_purchases]; rfl
    have hnid2 : (updateMonthlyInvoiceForCard
        (installmentRow ins firstD iv db.nextId i).invoiceMonth ins.cardId
        (insertRow db (installmentRow ins firstD iv db.nextId i))).nextId =
        db.nextId + 1 := by
      rw [refresh_nextId]; rfl
    obtain ⟨ih1, ih2, ih3⟩ := ih (i + 1) (updateMonthlyInvoiceForCard
      (installmentRow ins firstD iv db.nextId i).invoiceMonth ins.cardId
      (insertRow db (installmentRow ins firstD iv db.nextId i)))
    have hfst : (createLoop ins firstD iv i (n + 1) db).1 =
        installmentRow ins firstD iv db.nextId i ::
          (createLoop ins firstD iv (i + 1) n (updateMonthlyInvoiceForCard
            (installmentRow ins firstD iv db.nextId i).invoiceMonth ins.cardId
            (insertRow db (installmentRow ins firstD iv db.nextId i)))).1 := rfl
    have hsnd : (createLoop ins firstD iv i (n + 1) db).2 =
        (createLoop ins firstD iv (i + 1) n (updateMonthlyInvoiceForCard
          (installmentRow ins firstD iv db.nextId i).invoiceMonth ins.cardId
          (insertRow db (installmentRow ins firstD iv db.nextId i)))).2 := rfl
    refine ⟨?_, ?_, ?_⟩
    · rw [hfst, ih1, hnid2, List.range_succ_eq_map, List.map_cons, List.map_map]
      congr 1
      apply List.map_congr_left
      intro t _
      simp only [Function.comp_apply]
      have e1 : db.nextId + 1 + t = db.nextId + (t + 1) := by omega
      have e2 : i + 1 + t = i + (t + 1) := by omega
      rw [e1, e2]
    · rw [hsnd, ih2, hpur2, hfst, List.append_assoc, List.singleton_append]
    · rw [hsnd, ih3, hnid2]
      omega

/-- Membership is unchanged by first-occurrence deduplication. -/
theorem mem_dedupFirst (a : String) : ∀ l : List String, a ∈ dedupFirst l ↔ a ∈ l := by
  intro l
  induction l using dedupFirst.induct with
  | case1 => simp [dedupFirst]
  | case2 x xs ih =>
    rw [dedupFirst]
    simp only [List.mem_cons, ih, List.mem_filter]
    constructor
    · rintro (rfl | ⟨h1, _⟩)
      · exact Or.inl rfl
      · exact Or.inr h1
    · rintro (rfl | h)
      · exact Or.inl rfl
      · by_cases hax : a = x
        · exact Or.inl hax
        · exact Or.inr ⟨h, by simpa using hax⟩

/-- The refresh loop touches only the invoices table. -/
theorem refreshMonths_purchases (cardId : String) :
    ∀ (ms : List String) (db : DB), (refreshMonths cardId ms db).purchases = db.purchases := by
  intro ms
  induction ms with
  | nil => intro db; rfl
  | cons m tl ih =>
    intro db
    show (refreshMonths cardId tl (updateMonthlyInvoiceForCard m cardId db)).purchases = _
    rw [ih, refresh_purchases]

/-- After the refresh loop, every invoice row of the card whose month was
refreshed carries the recomputed sum, and every other row was already
present before the loop. -/
theorem refreshMonths_invoices (cardId : String) :
    ∀ (ms : List String) (db : DB) (r : InvoiceRow),
      r ∈ (refreshMonths cardId ms db).invoices →
      (r.month ∈ ms ∧ r.cardId = cardId →
        r.totalValue = sumInstallmentValues db.purchases r.month cardId)
      ∧ (¬(r.month ∈ ms ∧ r.cardId = cardId) → r ∈ db.invoices) := by
  intro ms
  induction ms with
  | nil =>
    intro db r hr
    exact ⟨fun h => absurd h.1 (List.not_mem_nil _), fun _ => hr⟩
  | cons m tl ih =>
    intro db r hr
    have hr' : r ∈ (refreshMonths cardId tl (updateMonthlyInvoiceForCard m cardId db)).invoices := hr
    obtain ⟨ihm, iho⟩ := ih (updateMonthlyInvoiceForCard m cardId db) r hr'
    have hsum : sumInstallmentValues
        (updateMonthlyInvoiceForCard m cardId db).purchases r.month cardId =
        sumInstallmentValues db.purchases r.month cardId := by
      rw [refresh_purchases]
    constructor
    · rintro ⟨hmem, hc⟩
      by_cases htl : r.month ∈ tl
      · rw [← hsum]; exact ihm ⟨htl, hc⟩
      · have hm : r.month = m := by
          rcases List.mem_cons.1 hmem with h | h
          · exact h
          · exact absurd h htl
        have hrdb1 : r ∈ (updateMonthlyInvoiceForCard m cardId db).invoices :=
          iho (fun h => htl h.1)
        rw [hm]
        exact refresh_mem_matching m cardId db r hrdb1 hm hc
    · intro hother
      have htl : ¬(r.month ∈ tl ∧ r.cardId = cardId) := by
        intro h
        exact hother ⟨List.mem_cons_of_mem m h.1, h.2⟩
      have hm : ¬(r.month = m ∧ r.cardId = cardId) := by
        intro h
        exact hother ⟨by rw [h.1]; exact List.mem_cons_self m tl, h.2⟩
      exact refresh_mem_other m cardId db r (iho htl) hm

/-- The refresh loop keeps any pre-existing row for a (month, card) pair
with the loop's card, re-establishing existence at each step. -/
theorem refreshMonths_exists_preserved (cardId m : String) :
    ∀ (ms : List String) (db : DB),
      (∃ r ∈ db.invoices, r.month = m ∧ r.cardId = cardId) →
      ∃ r ∈ (refreshMonths cardId ms db).invoices, r.month = m ∧ r.cardId = cardId := by
  intro ms
  induction ms with
  | nil => intro db h; exact h
  | cons m0 tl ih =>
    intro db h
    apply ih
    by_cases hm0 : m0 = m
    · subst hm0
      exact refresh_exists m0 cardId db
    · obtain ⟨r, hr, h1, h2⟩ := h
      exact ⟨r, refresh_mem_other_of_mem m0 cardId db r hr
        (fun hx => hm0 (h1 ▸ hx.1.symm ▸ rfl)), h1, h2⟩

/-- After the refresh loop, each refreshed month has an invoice row for
the card. -/
theorem refreshMonths_exists (cardId : String) :
    ∀ (ms : List String) (db : DB) (m : String), m ∈ ms →
      ∃ r ∈ (refreshMonths cardId ms db).invoices, r.month = m ∧ r.cardId = cardId := by
  intro ms
  induction ms with
  | nil => intro db m h; exact absurd h (List.not_mem_nil m)
  | cons m0 tl ih =>
    intro db m hm
    by_cases hm0 : m = m0
    · subst hm0
      exact refreshMonths_exists_preserved cardId m tl _ (refresh_exists m cardId db)
    · have htl : m ∈ tl := by
        rcases List.mem_cons.1 hm with h | h
        · exact absurd h hm0
        · exact h
      exact ih _ m htl

/-- Claim C7: invoking the aggregate refresh twice consecutively for the
same (month, cardId), with no intervening mutation, leaves the same
stored state — in particular the same MonthlyInvoice total — as invoking
it once. -/
theorem refresh_idem (month cardId : String) (db : DB) :
    updateMonthlyInvoiceForCard month cardId (updateMonthlyInvoiceForCard month cardId db) =
      updateMonthlyInvoiceForCard month cardId db := by
  set db1 := updateMonthlyInvoiceForCard month cardId db with hdb1
  have hsum : sumInstallmentValues db1.purchases month cardId =
      sumInstallmentValues db.purchases month cardId := by
    rw [hdb1, refresh_purchases]
  show updateMonthlyInvoiceForCard month cardId db1 = db1
  unfold updateMonthlyInvoiceForCard
  rw [hsum]
  unfold updateMonthlyInvoice
  have hany : db1.invoices.any (fun r => decide (r.month = month ∧ r.cardId = cardId)) = true := by
    obtain ⟨r, hr, h1, h2⟩ := refresh_exists month cardId db
    exact List.any_eq_true.2 ⟨r, hr, decide_eq_true ⟨h1, h2⟩⟩
  rw [if_pos hany]
  have hmap : db1.invoices.map (fun r =>
      if r.month = month ∧ r.cardId = cardId then
        { r with totalValue := sumInstallmentValues db.purchases month cardId } else r) =
      db1.invoices := by
    conv_rhs => rw [← List.map_id db1.invoices]
    apply List.map_congr_left
    intro r hr
    by_cases hmc : r.month = month ∧ r.cardId = cardId
    · rw [if_pos hmc]
      have ht : r.totalValue = sumInstallmentValues db.purchases month cardId :=
        refresh_mem_matching month cardId db r hr hmc.1 hmc.2
      cases r
      simp_all
    · rw [if_neg hmc]
      rfl
  rw [hmap]

/-- The sibling test is the five-field value equality of the source. -/
theorem sibMatch_iff (p q : PurchaseRow) : sibMatch p q = true ↔
    (q.cardId = p.cardId ∧ q.purchaseDate = p.purchaseDate ∧ q.name = p.name ∧
     q.totalValue = p.totalValue ∧ q.totalInstallments = p.totalInstallments) := by
  simp [sibMatch]

/-- Claim C1: after a completed createPurchase or deletePurchase call,
every MonthlyInvoice row again carries exactly the sum of installmentValue
over the purchase rows of its (invoiceMonth, cardId) pair, provided the
invariant held when the call started. -/
theorem invariant_after_mutations (ins : InsertPurchase) (pid : Nat) (db : DB)
    (h : invariantHolds db) :
    invariantHolds (createPurchase ins db).2 ∧ invariantHolds (deletePurchase pid db) := by
  constructor
  · cases hcg : getCard db ins.cardId with
    | none =>
      simp only [createPurchase, hcg]
      exact h
    | some card =>
      simp only [createPurchase, hcg]
      exact createLoop_invariant ins _ _ ins.totalInstallments 0 db h
  · cases hfd : db.purchases.find? (fun p => p.id == pid) with
    | none =>
      simp only [deletePurchase, hfd]
      exact h
    | some p =>
      simp only [deletePurchase, hfd]
      set ms := dedupFirst ((db.purchases.filter (sibMatch p)).map fun q => q.invoiceMonth)
        with hms
      set db1 : DB := { db with purchases := db.purchases.filter fun q => !sibMatch p q }
        with hdb1
      intro r hr
      obtain ⟨hin, hout⟩ := refreshMonths_invoices p.cardId ms db1 r hr
      rw [refreshMonths_purchases]
      by_cases hcase : r.month ∈ ms ∧ r.cardId = p.cardId
      · rw [hcase.2]
        exact hin hcase
      · have hrdb : r ∈ db.invoices := hout hcase
        have hbase := h r hrdb
        show r.totalValue =
          sumInstallmentValues (db.purchases.filter fun q => !sibMatch p q) r.month r.cardId
        rw [sumInstallmentValues_filter_other]
        · exact hbase
        · intro q hq hqm hqc
          simp only [Bool.not_eq_true']
          cases hx : sibMatch p q with
          | false => rfl
          | true =>
            exfalso
            apply hcase
            have hqcard : q.cardId = p.cardId := ((sibMatch_iff p q).1 hx).1
            constructor
            · rw [← hqm, hms, mem_dedupFirst]
              exact List.mem_map.2 ⟨q, List.mem_filter.2 ⟨hq, hx⟩, rfl⟩
            · rw [← hqc, hqcard]

/-- The rows appended by a successful createPurchase call, in closed
form: one installmentRow per index, ids taken sequentially from the id
supply. -/
theorem createdRows_eq (ins : InsertPurchase) (db : DB) (card : CardRow)
    (hcg : getCard db ins.cardId = some card) :
    createdRows ins db = (List.range ins.totalInstallments).map (fun i =>
      installmentRow ins (firstInvoiceDate ins.purchaseDate card.closingDay)
        (ins.totalValue / (ins.totalInstallments : ℚ)) (db.nextId + i) i) := by
  unfold createdRows
  simp only [createPurchase, hcg]
  obtain ⟨h1, h2, h3⟩ := createLoop_spec ins
    (firstInvoiceDate ins.purchaseDate card.closingDay)
    (ins.totalValue / (ins.totalInstallments : ℚ)) ins.totalInstallments 0 db
  rw [h2, h1, List.drop_left]
  simp

/-- The representative record a successful createPurchase call returns is
the head of the appended rows. -/
theorem createPurchase_returns_head (ins : InsertPurchase) (db : DB) (card : CardRow)
    (hcg : getCard db ins.cardId = some card) :
    (createPurchase ins db).1 = Except.ok (createdRows ins db).head? := by
  rw [createdRows_eq ins db card hcg]
  simp only [createPurchase, hcg]
  obtain ⟨h1, _, _⟩ := createLoop_spec ins
    (firstInvoiceDate ins.purchaseDate card.closingDay)
    (ins.totalValue / (ins.totalInstallments : ℚ)) ins.totalInstallments 0 db
  rw [h1]
  simp

/-- Claim C4: a successful createPurchase call with N installments
persists exactly N records, appended in order, the i-th carrying
currentInstallment i+1, the common installment value, the invoice month
of the first invoice date advanced i months formatted as zero-padded
YYYY-MM, and the shared input fields copied verbatim; the call returns
the first persisted record. -/
theorem createPurchase_persists_installments (ins : InsertPurchase) (db : DB)
    (card : CardRow) (hcg : getCard db ins.cardId = some card)
    (hN : 1 ≤ ins.totalInstallments) :
    (createdRows ins db).length = ins.totalInstallments
    ∧ (createPurchase ins db).2.purchases = db.purchases ++ createdRows ins db
    ∧ (∀ i, ∀ hi : i < (createdRows ins db).length,
        ((createdRows ins db).get ⟨i, hi⟩).currentInstallment = i + 1
        ∧ ((createdRows ins db).get ⟨i, hi⟩).installmentValue =
            ins.totalValue / (ins.totalInstallments : ℚ)
        ∧ ((createdRows ins db).get ⟨i, hi⟩).invoiceMonth =
            formatYM (addMonths (firstInvoiceDate ins.purchaseDate card.closingDay) i).year
              (addMonths (firstInvoiceDate ins.purchaseDate card.closingDay) i).month
        ∧ ((createdRows ins db).get ⟨i, hi⟩).cardId = ins.cardId
        ∧ ((createdRows ins db).get ⟨i, hi⟩).purchaseDate = ins.purchaseDate
        ∧ ((createdRows ins db).get ⟨i, hi⟩).name = ins.name
        ∧ ((createdRows ins db).get ⟨i, hi⟩).category = ins.category
        ∧ ((createdRows ins db).get ⟨i, hi⟩).totalValue = ins.totalValue
        ∧ ((createdRows ins db).get ⟨i, hi⟩).totalInstallments = ins.totalInstallments)
    ∧ (createPurchase ins db).1 = Except.ok (createdRows ins db).head?
    ∧ (createdRows ins db).head? = some (installmentRow ins
        (firstInvoiceDate ins.purchaseDate card.closingDay)
        (ins.totalValue / (ins.totalInstallments : ℚ)) db.nextId 0) := by
  have hrows := createdRows_eq ins db card hcg
  refine ⟨?_, ?_, ?_, createPurchase_returns_head ins db card hcg, ?_⟩
  · rw [hrows]
    simp
  · have hdrop : createdRows ins db =
        (createPurchase ins db).2.purchases.drop db.purchases.length := rfl
    simp only [createPurchase, hcg] at hdrop ⊢
    obtain ⟨h1, h2, h3⟩ := createLoop_spec ins
      (firstInvoiceDate ins.purchaseDate card.closingDay)
      (ins.totalValue / (ins.totalInstallments : ℚ)) ins.totalInstallments 0 db
    rw [h2, hdrop, h2, List.drop_left]
  · intro i hi
    have hlt : i < ins.totalInstallments := by
      rw [hrows] at hi
      simpa using hi
    have hget : (createdRows ins db).get ⟨i, hi⟩ =
        installmentRow ins (firstInvoiceDate ins.purchaseDate card.closingDay)
          (ins.totalValue / (ins.totalInstallments : ℚ)) (db.nextId + i) i := by
      rw [List.get_eq_getElem]
      rw [List.getElem_of_eq hrows]
      simp
    rw [hget]
    exact ⟨rfl, rfl, rfl, rfl, rfl, rfl, rfl, rfl, rfl⟩
  · rw [hrows]
    obtain ⟨m, hm⟩ : ∃ m, ins.totalInstallments = m + 1 := ⟨ins.totalInstallments - 1, by omega⟩
    rw [hm, List.range_succ_eq_map]
    simp

/-- Claim C5: every persisted installment carries totalValue divided by
totalInstallments, with no remainder redistribution, and the installment
values of one purchase sum back to totalValue exactly (money is modelled
as exact rationals, so the floating-point tolerance is met with equality),
also when totalValue is not evenly divisible. -/
theorem installmentValue_division (ins : InsertPurchase) (db : DB) (card : CardRow)
    (hcg : getCard db ins.cardId = some card) (hN : 1 ≤ ins.totalInstallments) :
    (∀ r ∈ createdRows ins db,
      r.installmentValue = ins.totalValue / (ins.totalInstallments : ℚ))
    ∧ ((createdRows ins db).map fun r => r.installmentValue).sum = ins.totalValue := by
  have hrows := createdRows_eq ins db card hcg
  have hN0 : (ins.totalInstallments : ℚ) ≠ 0 := Nat.cast_ne_zero.mpr (by omega)
  constructor
  · intro r hr
    rw [hrows] at hr
    simp only [List.mem_map] at hr
    obtain ⟨t, _, ht⟩ := hr
    rw [← ht]
    rfl
  · rw [hrows, List.map_map]
    have hconst : ((List.range ins.totalInstallments).map
        ((fun r => r.installmentValue) ∘ (fun i =>
          installmentRow ins (firstInvoiceDate ins.purchaseDate card.closingDay)
            (ins.totalValue / (ins.totalInstallments : ℚ)) (db.nextId + i) i))) =
        List.replicate ins.totalInstallments (ins.totalValue / (ins.totalInstallments : ℚ)) := by
      rw [List.eq_replicate_iff]
      refine ⟨by simp, ?_⟩
      intro b hb
      simp only [List.mem_map, Function.comp_apply] at hb
      obtain ⟨t, _, ht⟩ := hb
      rw [← ht]
      rfl
    rw [hconst, List.sum_replicate, nsmul_eq_mul, mul_comm,
      div_mul_cancel₀ ins.totalValue hN0]

/-- Claim C3 (amended): when the first invoice date's day-of-month is at
most 28 — so the ECMAScript day-overflow normalization can never fire —
the i-th installment's invoice month is the first invoice month advanced
by exactly i calendar months, the year rolling over at month 12 to 1, so
the N months are consecutive. -/
theorem installment_months_advance (ins : InsertPurchase) (db : DB) (card : CardRow)
    (hcg : getCard db ins.cardId = some card)
    (hday : (firstInvoiceDate ins.purchaseDate card.closingDay).day ≤ 28) :
    createdInvoiceMonths ins db = (List.range ins.totalInstallments).map fun i =>
      formatYM
        (specAdvanceMonth (firstInvoiceDate ins.purchaseDate card.closingDay).year
          (firstInvoiceDate ins.purchaseDate card.closingDay).month i).1
        (specAdvanceMonth (firstInvoiceDate ins.purchaseDate card.closingDay).year
          (firstInvoiceDate ins.purchaseDate card.closingDay).month i).2 := by
  unfold createdInvoiceMonths
  rw [createdRows_eq ins db card hcg, List.map_map]
  apply List.map_congr_left
  intro t _
  simp only [Function.comp_apply]
  show formatYM (addMonths (firstInvoiceDate ins.purchaseDate card.closingDay) t).year
    (addMonths (firstInvoiceDate ins.purchaseDate card.closingDay) t).month = _
  rw [addMonths_day_le _ t hday]

/-- Input falsifying claim C3 as stated: card closing day 31, purchase
2023-12-30, four installments. -/
def cex3Db : DB := ⟨[⟨"c3", 31⟩], [], [], 0⟩

/-- The four-installment purchase of the C3 counterexample. -/
def cex3Ins : InsertPurchase := ⟨"c3", ⟨2023, 12, 30⟩, "sofa", "home", 4, 4⟩

/-- Counterexample to claim C3 as stated: the purchase of 2023-12-30 on a
card closing on day 31 (so the first invoice month is 2023-12) puts its
third installment in 2024-03, not in the claimed 2024-02: day 30 does not
exist in February, so ECMAScript date normalization rolls it over, the
four months are not consecutive and 2024-03 even repeats. -/
theorem installment_months_advance_cex :
    createdInvoiceMonths cex3Ins cex3Db = ["2023-12", "2024-01", "2024-03", "2024-03"]
    ∧ createdInvoiceMonths cex3Ins cex3Db ≠ (List.range 4).map (fun i =>
        formatYM (specAdvanceMonth 2023 12 i).1 (specAdvanceMonth 2023 12 i).2) := by
  constructor
  · decide
  · decide

/-- Claim C2 (amended): for a valid purchase date with day D and a card
closing day C, the first invoice date is the purchase date itself when
D < C; when D >= C it carries the month after the purchase month as long
as D does not exceed that month's length, and otherwise rolls one month
further (the ECMAScript setMonth day normalization). -/
theorem firstInvoiceDate_rule (y m d c : Nat) (hm1 : 1 ≤ m) (hm2 : m ≤ 12)
    (hd : d ≤ daysInMonth y m) :
    (d < c → firstInvoiceDate ⟨y, m, d⟩ c = ⟨y, m, d⟩)
    ∧ (c ≤ d → d ≤ daysInMonth (nextYM y m).1 (nextYM y m).2 →
        (firstInvoiceDate ⟨y, m, d⟩ c).year = (nextYM y m).1
        ∧ (firstInvoiceDate ⟨y, m, d⟩ c).month = (nextYM y m).2)
    ∧ (c ≤ d → daysInMonth (nextYM y m).1 (nextYM y m).2 < d →
        (firstInvoiceDate ⟨y, m, d⟩ c).year = (nextYM (nextYM y m).1 (nextYM y m).2).1
        ∧ (firstInvoiceDate ⟨y, m, d⟩ c).month = (nextYM (nextYM y m).1 (nextYM y m).2).2) := by
  have hidx1 : (y * 12 + (m - 1) + 1) / 12 = (nextYM y m).1 := by
    unfold nextYM
    split
    · omega
    · omega
  have hidx2 : (y * 12 + (m - 1) + 1) % 12 + 1 = (nextYM y m).2 := by
    unfold nextYM
    split
    · omega
    · omega
  have hadd : c ≤ d → firstInvoiceDate ⟨y, m, d⟩ c =
      normalizeDate (nextYM y m).1 (nextYM y m).2 d := by
    intro hc
    unfold firstInvoiceDate
    rw [if_pos (by simpa using hc)]
    unfold addMonths
    show normalizeDate ((y * 12 + (m - 1) + 1) / 12) ((y * 12 + (m - 1) + 1) % 12 + 1) d =
      normalizeDate (nextYM y m).1 (nextYM y m).2 d
    rw [hidx1, hidx2]
  refine ⟨?_, ?_, ?_⟩
  · intro hlt
    unfold firstInvoiceDate
    rw [if_neg (by simpa using hlt)]
  · intro hc hle
    rw [hadd hc, normalizeDate_of_le _ _ _ hle]
    exact ⟨rfl, rfl⟩
  · intro hc hgt
    have hstep := normalizeDate_one_step (nextYM y m).1 (nextYM y m).2 d hgt ?_
    · rw [hadd hc, hstep]
      exact ⟨rfl, rfl⟩
    · have h28 := le_daysInMonth (nextYM (nextYM y m).1 (nextYM y m).2).1
        (nextYM (nextYM y m).1 (nextYM y m).2).2
      have h31 := daysInMonth_le y m
      have h28b := le_daysInMonth (nextYM y m).1 (nextYM y m).2
      omega

/-- Input falsifying claim C2 as stated: card closing day 15, purchase
2024-01-31. -/
def cex2Db : DB := ⟨[⟨"c2", 15⟩], [], [], 0⟩

/-- The single-installment purchase of the C2 counterexample. -/
def cex2Ins : InsertPurchase := ⟨"c2", ⟨2024, 1, 31⟩, "tv", "stuff", 10, 1⟩

/-- Counterexample to claim C2 as stated: a purchase on 2024-01-31 with
closing day 15 has D = 31 >= C = 15, so the claim puts the first
installment in 2024-02, the month after the purchase month; the code bills
it in 2024-03, because day 31 does not exist in February and ECMAScript
setMonth rolls the date over. -/
theorem firstInvoiceDate_rule_cex :
    repMonth (createPurchase cex2Ins cex2Db).1 = some "2024-03"
    ∧ repMonth (createPurchase cex2Ins cex2Db).1 ≠ some "2024-02" := by
  constructor
  · decide
  · decide

/-- Claim C6: the aggregate refresh computes the installment sum of the
(month, cardId) pair and upserts it — after the call a row for the pair
exists and every row for the pair carries exactly that sum, rows of other
pairs survive, the table never shrinks, and an empty match yields sum 0
(so a zero-total row is written rather than any row deleted). -/
theorem refresh_upsert_spec (month cardId : String) (db : DB) :
    (∃ r ∈ (updateMonthlyInvoiceForCard month cardId db).invoices,
      r.month = month ∧ r.cardId = cardId)
    ∧ (∀ r ∈ (updateMonthlyInvoiceForCard month cardId db).invoices,
        r.month = month → r.cardId = cardId →
        r.totalValue = sumInstallmentValues db.purchases month cardId)
    ∧ (∀ r ∈ db.invoices, ¬(r.month = month ∧ r.cardId = cardId) →
        r ∈ (updateMonthlyInvoiceForCard month cardId db).invoices)
    ∧ db.invoices.length ≤ (updateMonthlyInvoiceForCard month cardId db).invoices.length
    ∧ ((db.purchases.filter fun p =>
          decide (p.invoiceMonth = month ∧ p.cardId = cardId)) = [] →
        sumInstallmentValues db.purchases month cardId = 0) := by
  refine ⟨refresh_exists month cardId db,
    fun r hr hm hc => refresh_mem_matching month cardId db r hr hm hc,
    fun r hr hother => refresh_mem_other_of_mem month cardId db r hr hother,
    ?_, ?_⟩
  · unfold updateMonthlyInvoiceForCard updateMonthlyInvoice
    split
    · rw [List.length_map]
    · rw [List.length_append]
      simp
  · intro hempty
    unfold sumInstallmentValues
    rw [hempty]
    rfl

/-- Claim C8: deletePurchase with an unknown id leaves the state
unchanged; with a known id it deletes exactly the rows agreeing with the
identified row on (cardId, purchaseDate, name, totalValue,
totalInstallments) — so value-identical logical purchases are merged and
deleted together — and, for each invoice month collected from that
sibling set before the deletion, leaves the card's MonthlyInvoice rows of
that month recomputed over the remaining purchases. -/
theorem deletePurchase_spec (pid : Nat) (db : DB) :
    (db.purchases.find? (fun q => q.id == pid) = none → deletePurchase pid db = db)
    ∧ ∀ p, db.purchases.find? (fun q => q.id == pid) = some p →
        (deletePurchase pid db).purchases = db.purchases.filter (fun q => !sibMatch p q)
        ∧ (∀ m ∈ (db.purchases.filter (sibMatch p)).map (fun q => q.invoiceMonth),
            ∃ r ∈ (deletePurchase pid db).invoices, r.month = m ∧ r.cardId = p.cardId)
        ∧ (∀ r ∈ (deletePurchase pid db).invoices, r.cardId = p.cardId →
            r.month ∈ (db.purchases.filter (sibMatch p)).map (fun q => q.invoiceMonth) →
            r.totalValue = sumInstallmentValues
              (db.purchases.filter fun q => !sibMatch p q) r.month p.cardId) := by
  constructor
  · intro hnone
    simp only [deletePurchase, hnone]
  · intro p hp
    simp only [deletePurchase, hp]
    set ms := dedupFirst ((db.purchases.filter (sibMatch p)).map fun q => q.invoiceMonth)
      with hms
    set db1 : DB := { db with purchases := db.purchases.filter fun q => !sibMatch p q }
      with hdb1
    refine ⟨?_, ?_, ?_⟩
    · rw [refreshMonths_purchases]
    · intro m hm
      apply refreshMonths_exists p.cardId ms db1 m
      rw [hms, mem_dedupFirst]
      exact hm
    · intro r hr hc hm
      have hmem : r.month ∈ ms := by
        rw [hms, mem_dedupFirst]
        exact hm
      exact (refreshMonths_invoices p.cardId ms db1 r hr).1 ⟨hmem, hc⟩

/-- Claim C9: createPurchase fails with the card-not-found error exactly
when the referenced cardId resolves to no card, and in that case the
database state is left entirely unchanged — no installment row and no
MonthlyInvoice row is written. -/
theorem createPurchase_card_not_found (ins : InsertPurchase) (db : DB) :
    ((createPurchase ins db).1 = Except.error "Card not found" ↔
      getCard db ins.cardId = none)
    ∧ (getCard db ins.cardId = none → (createPurchase ins db).2 = db) := by
  cases hcg : getCard db ins.cardId with
  | none => simp [createPurchase, hcg]
  | some card => simp [createPurchase, hcg]

/-- Claim C10 (amended): insertPurchaseSchema accepts totalInstallments
exactly when it lies between 1 and 99 inclusive, with no integrality
requirement; for an (integer) installment count of at least 1 the
createPurchase loop runs at least once, so the returned purchaseList[0]
is a defined record and the index-0 access cannot be out of bounds. -/
theorem schema_bounds_and_first_row (t : ℚ) (ins : InsertPurchase) (db : DB)
    (card : CardRow) (hcg : getCard db ins.cardId = some card)
    (hN : 1 ≤ ins.totalInstallments) :
    (totalInstallmentsAccepted t = true → 1 ≤ t ∧ t ≤ 99)
    ∧ ∃ row, (createPurchase ins db).1 = Except.ok (some row) := by
  constructor
  · intro ht
    unfold totalInstallmentsAccepted at ht
    rw [Bool.and_eq_true, decide_eq_true_iff, decide_eq_true_iff] at ht
    exact ht
  · refine ⟨installmentRow ins (firstInvoiceDate ins.purchaseDate card.closingDay)
      (ins.totalValue / (ins.totalInstallments : ℚ)) db.nextId 0, ?_⟩
    rw [createPurchase_returns_head ins db card hcg, createdRows_eq ins db card hcg]
    obtain ⟨m, hm⟩ : ∃ m, ins.totalInstallments = m + 1 :=
      ⟨ins.totalInstallments - 1, by omega⟩
    rw [hm, List.range_succ_eq_map]
    simp

/-- Counterexample to claim C10 as stated: the schema accepts the
non-integer installment count 5/2, since z.number().min(1).max(99)
carries no integrality check. -/
theorem schema_accepts_non_integer :
    totalInstallmentsAccepted (5 / 2) = true ∧ ¬∃ n : ℤ, (5 : ℚ) / 2 = (n : ℚ) := by
  constructor
  · unfold totalInstallmentsAccepted
    rw [Bool.and_eq_true, decide_eq_true_iff, decide_eq_true_iff]
    constructor
    · norm_num
    · norm_num
  · rintro ⟨n, hn⟩
    have h5 : (5 : ℚ) = 2 * (n : ℚ) := by
      field_simp at hn
      linarith
    have h5i : (5 : ℤ) = 2 * n := by exact_mod_cast h5
    omega

/-- A one-card empty database used to instantiate the theorems. -/
def exDb : DB := ⟨[⟨"c1", 15⟩], [], [], 0⟩

/-- A two-installment purchase on the card of exDb. -/
def exIns : InsertPurchase := ⟨"c1", ⟨2024, 3, 14⟩, "tv", "stuff", 6, 2⟩

/-- Witness for claim C1 at a concrete state satisfying the invariant. -/
theorem invariant_after_mutations_witness :
    invariantHolds exDb
    ∧ invariantHolds (createPurchase exIns exDb).2
    ∧ invariantHolds (deletePurchase 0 exDb) :=
  ⟨by decide, (invariant_after_mutations exIns 0 exDb (by decide)).1,
   (invariant_after_mutations exIns 0 exDb (by decide)).2⟩

/-- Witness for claim C2 at the spec's own examples: purchase 2024-03-14
with closing day 15 bills in 2024-03, purchase 2024-03-15 in 2024-04. -/
theorem firstInvoiceDate_rule_witness :
    firstInvoiceDate ⟨2024, 3, 14⟩ 15 = ⟨2024, 3, 14⟩
    ∧ (firstInvoiceDate ⟨2024, 3, 15⟩ 15).year = 2024
    ∧ (firstInvoiceDate ⟨2024, 3, 15⟩ 15).month = 4 :=
  ⟨(firstInvoiceDate_rule 2024 3 14 15 (by decide) (by decide) (by decide)).1 (by decide),
   ((firstInvoiceDate_rule 2024 3 15 15 (by decide) (by decide) (by decide)).2.1
     (by decide) (by decide)).1,
   ((firstInvoiceDate_rule 2024 3 15 15 (by decide) (by decide) (by decide)).2.1
     (by decide) (by decide)).2⟩

/-- A one-card database whose card closes on day 10. -/
def exDb3 : DB := ⟨[⟨"c4", 10⟩], [], [], 0⟩

/-- The three-installment December purchase of the spec's rollover
example. -/
def exIns3 : InsertPurchase := ⟨"c4", ⟨2024, 12, 20⟩, "bike", "sport", 9, 3⟩

/-- Witness for claim C3 at the spec's rollover example: purchase
2024-12-20, closing day 10, three installments, billed 2025-01 through
2025-03. -/
theorem installment_months_advance_witness :
    createdInvoiceMonths exIns3 exDb3 = ["2025-01", "2025-02", "2025-03"] :=
  (installment_months_advance exIns3 exDb3 ⟨"c4", 10⟩ (by decide) (by decide)).trans
    (by decide)

/-- Witness for claim C4 at a concrete two-installment purchase. -/
theorem createPurchase_persists_installments_witness :
    (createdRows exIns exDb).length = 2
    ∧ (createPurchase exIns exDb).1 = Except.ok (createdRows exIns exDb).head? :=
  ⟨(createPurchase_persists_installments exIns exDb ⟨"c1", 15⟩ (by decide) (by decide)).1,
   (createPurchase_persists_installments exIns exDb ⟨"c1", 15⟩ (by decide)
     (by decide)).2.2.2.1⟩

/-- Witness for claim C5 at a concrete two-installment purchase of total
value 6. -/
theorem installmentValue_division_witness :
    ((createdRows exIns exDb).map fun r => r.installmentValue).sum = 6 :=
  (installmentValue_division exIns exDb ⟨"c1", 15⟩ (by decide) (by decide)).2

/-- A database holding one unrelated invoice row, to watch it survive a
refresh of a different pair. -/
def exDb6 : DB := ⟨[⟨"c1", 15⟩], [], [⟨"2023-01", "c9", 0⟩], 7⟩

/-- Witness for claim C6: refreshing (2024-03, c1) on exDb6 creates a row
for the pair and keeps the unrelated (2023-01, c9) row. -/
theorem refresh_upsert_spec_witness :
    (∃ r ∈ (updateMonthlyInvoiceForCard "2024-03" "c1" exDb6).invoices,
      r.month = "2024-03" ∧ r.cardId = "c1")
    ∧ (⟨"2023-01", "c9", 0⟩ : InvoiceRow) ∈
        (updateMonthlyInvoiceForCard "2024-03" "c1" exDb6).invoices :=
  ⟨(refresh_upsert_spec "2024-03" "c1" exDb6).1,
   (refresh_upsert_spec "2024-03" "c1" exDb6).2.2.1 ⟨"2023-01", "c9", 0⟩
     (by decide) (by decide)⟩

/-- First installment row of the first logical purchase of the C8
witness. -/
def delRow1 : PurchaseRow := ⟨1, "c1", ⟨2024, 3, 14⟩, "tv", "stuff", 6, 2, 1, 3, "2024-03"⟩

/-- Second installment row of the first logical purchase of the C8
witness. -/
def delRow2 : PurchaseRow := ⟨2, "c1", ⟨2024, 3, 14⟩, "tv", "stuff", 6, 2, 2, 3, "2024-04"⟩

/-- A second logical purchase agreeing with the first on all five sibling
key fields. -/
def delRow3 : PurchaseRow := ⟨3, "c1", ⟨2024, 3, 14⟩, "tv", "stuff", 6, 2, 1, 3, "2024-03"⟩

/-- An unrelated purchase row that must survive the C8 deletion. -/
def delRow4 : PurchaseRow := ⟨4, "c1", ⟨2024, 3, 14⟩, "rug", "home", 5, 1, 1, 5, "2024-03"⟩

/-- The database of the C8 witness. -/
def delDb : DB := ⟨[⟨"c1", 15⟩], [delRow1, delRow2, delRow3, delRow4], [], 5⟩

/-- Witness for claim C8: deleting installment id 1 removes every sibling
row — including the value-identical second logical purchase — leaving
only the unrelated row. -/
theorem deletePurchase_spec_witness :
    (deletePurchase 1 delDb).purchases =
      delDb.purchases.filter (fun q => !sibMatch delRow1 q)
    ∧ delDb.purchases.filter (fun q => !sibMatch delRow1 q) = [delRow4] :=
  ⟨((deletePurchase_spec 1 delDb).2 delRow1 (by decide)).1, by decide⟩

/-- A purchase submission referencing a card id that resolves to no
card. -/
def insBad : InsertPurchase := ⟨"zz", ⟨2024, 3, 14⟩, "tv", "stuff", 6, 2⟩

/-- Witness for claim C9: an unknown card id yields the card-not-found
error and leaves the state untouched. -/
theorem createPurchase_card_not_found_witness :
    (createPurchase insBad exDb).1 = Except.error "Card not found"
    ∧ (createPurchase insBad exDb).2 = exDb :=
  ⟨(createPurchase_card_not_found insBad exDb).1.mpr (by decide),
   (createPurchase_card_not_found insBad exDb).2 (by decide)⟩

/-- Witness for claim C10: the accepted count 3 lies in the schema range
and a concrete two-installment createPurchase returns a defined record. -/
theorem schema_bounds_and_first_row_witness :
    ((1 : ℚ) ≤ 3 ∧ (3 : ℚ) ≤ 99)
    ∧ ∃ row, (createPurchase exIns exDb).1 = Except.ok (some row) :=
  ⟨(schema_bounds_and_first_row 3 exIns exDb ⟨"c1", 15⟩ (by decide) (by decide)).1
     (by decide),
   (schema_bounds_and_first_row 3 exIns exDb ⟨"c1", 15⟩ (by decide) (by decide)).2⟩
